import Mathlib

/-
Verification model of the EchoDownloader job supervisor (src/app.py).

The registry state (jobs map, queue list, active_jobs set, QUEUE_MODE flag)
and the lock-guarded code regions of app.py are embedded as a small-step
transition system.  Every region executed under jobs_lock is one atomic
step; code between two lock regions is a scheduling point, so an in-flight
run_job thread or cancel-cleanup thread is represented by an explicit
program-counter phase.  Python dicts are heap objects: a thread holds a
reference to its job dict even after the dict is popped from the jobs map,
so the model keeps a heap (store, never shrinking) separate from the set of
registered map keys.  Machine details that no verified claim depends on
(stderr text, SIGTERM delivery, logging, the /info metadata probe, the
read-only /progress /history /open endpoints) are not modelled; they do not
mutate the registry.

One consequence of the source is modelled by the wedged flag: the /download
handler calls start_next_from_queue() while already inside `with jobs_lock`
(app.py lines 373-389), and jobs_lock is a non-reentrant threading.Lock, so
a queue-mode submission blocks forever on the nested acquire while holding
the lock.  After that, every step needing the lock is disabled.
-/

namespace EchoDownloader

/-! ## Configuration (class Config, app.py lines 22-50) -/

def MAX_PARALLEL : Nat := 3

def MAX_HISTORY_ENTRIES : Nat := 50

def USER_AGENT : String :=
  "Mozilla/5.0 (Windows NT 10.0; Win64; x64) AppleWebKit/537.36 (KHTML, like Gecko) Chrome/131.0.0.0 Safari/537.36"

/-- COMMON_OPTS with the empty COOKIE_STRATEGY spliced in. -/
def COMMON_OPTS : List String :=
  ["--user-agent", USER_AGENT,
   "--no-playlist",
   "--extractor-retries", "5",
   "--retries", "10",
   "--fragment-retries", "10",
   "--socket-timeout", "30"]

def audioDir : String := "downloads/audio"

def videoDir : String := "downloads/video"

/-! ## Data model -/

/-- Job lifecycle status strings used by app.py. -/
inductive Status where
  | queued
  | starting
  | downloading
  | done
  | error
  | cancelled
deriving DecidableEq, Repr

/-- The two accepted values of the "mode" field. -/
inductive Mode where
  | mp3
  | mp4
deriving DecidableEq, Repr

def Mode.str : Mode → String
  | .mp3 => "mp3"
  | .mp4 => "mp4"

def outdirOf : Mode → String
  | .mp3 => audioDir
  | .mp4 => videoDir

/-- The yt-dlp command list built in the /download handler
(app.py lines 344-371). -/
def buildCmd (m : Mode) (url : String) : List String :=
  match m with
  | .mp3 =>
      ["yt-dlp"] ++ COMMON_OPTS ++
      ["--newline", "--no-warnings",
       "--progress-template", "%(progress)j",
       "-x", "--audio-format", "mp3", "--audio-quality", "0",
       "-o", audioDir ++ "/%(title)s.%(ext)s",
       url]
  | .mp4 =>
      ["yt-dlp"] ++ COMMON_OPTS ++
      ["--newline", "--no-warnings",
       "--progress-template", "%(progress)j",
       "-o", videoDir ++ "/%(title)s.%(ext)s",
       url]

/-- One job dict (app.py lines 374-385).  percent is modelled as a Nat
(the values the supervisor itself writes are 0 and 100; intermediate
values stream in from the external process).  process is modelled as a
Bool recording whether a process handle is attached. -/
structure Job where
  id : Nat
  title : String
  mode : Mode
  folder : String
  status : Status
  percent : Nat
  speed : String
  eta : String
  cmd : List String
  process : Bool
deriving DecidableEq, Repr

def mkJob (id : Nat) (url : String) (m : Mode) (st : Status) : Job :=
  { id := id, title := url, mode := m, folder := outdirOf m, status := st,
    percent := 0, speed := "", eta := "", cmd := buildCmd m url, process := false }

/-- One persisted history entry: save_history is called with
a dict holding keys "title" and "type" (app.py lines 180-183).
The "type" key is named etype here because type is a Lean keyword. -/
structure HEntry where
  title : String
  etype : String
deriving DecidableEq, Repr

/-- The history.json file: absent, present but unparseable, or a stored
list of entries. -/
inductive HFile where
  | absent
  | corrupt
  | stored (l : List HEntry)
deriving DecidableEq, Repr

/-- load_history (app.py lines 64-74): the persisted list, or [] when the
file is absent or its content fails to parse. -/
def load_history : HFile → List HEntry
  | .absent => []
  | .corrupt => []
  | .stored l => l

/-- save_history (app.py lines 76-84): load, insert the entry at index 0,
write back the first MAX_HISTORY_ENTRIES entries. -/
def save_history (f : HFile) (e : HEntry) : HFile :=
  .stored ((e :: load_history f).take MAX_HISTORY_ENTRIES)

/-! ## Thread program counters

A run_job thread passes through four scheduling points:
tStart   before the first lock region (app.py 137-141);
tSpawned after Popen, before the bind region (151-153);
tRunning reading process output, before the exit region (172-188);
tAfterExit before the final `if QUEUE_MODE: start_next_from_queue()`
(196-197).  A cancel-cleanup thread (434-441) sleeps (cWait), then runs
its lock region, then calls start_next_from_queue (cKick). -/

inductive TPhase where
  | tStart
  | tSpawned
  | tRunning
  | tAfterExit
deriving DecidableEq, Repr, Fintype

inductive CPhase where
  | cWait
  | cKick
deriving DecidableEq, Repr, Fintype

inductive Thr where
  | runJob (id : Nat) (ph : TPhase)
  | cleanup (id : Nat) (ph : CPhase)
deriving DecidableEq, Repr

/-! ## Global state (app.py lines 56-61) -/

structure St where
  /-- the heap of job dicts ever created; threads keep references to these
  even after `jobs.pop`, so this list never shrinks. -/
  store : List (Nat × Job)
  /-- the keys currently present in the `jobs` map. -/
  registered : List Nat
  /-- the `queue` list of job ids. -/
  queue : List Nat
  /-- the `active_jobs` set (kept duplicate-free by setAdd). -/
  active : List Nat
  /-- QUEUE_MODE. -/
  queueMode : Bool
  /-- fresh id supply standing in for uuid4 uniqueness. -/
  nextId : Nat
  /-- in-flight run_job and cleanup threads. -/
  threads : List Thr
  /-- the history.json file. -/
  hist : HFile
  /-- true once a thread has deadlocked on the nested jobs_lock acquire
  while holding jobs_lock; every lock region is disabled from then on. -/
  wedged : Bool
deriving DecidableEq, Repr

def init : St :=
  { store := [], registered := [], queue := [], active := [],
    queueMode := false, nextId := 0, threads := [], hist := .absent,
    wedged := false }

/-- Update every store entry carrying the given key (a Python dict
mutation through any reference to it). -/
def updStore : List (Nat × Job) → Nat → (Job → Job) → List (Nat × Job)
  | [], _, _ => []
  | (k, b) :: t, id, f =>
      (if k = id then (k, f b) else (k, b)) :: updStore t id f

/-- Set insert for the active_jobs set. -/
def setAdd (l : List Nat) (id : Nat) : List Nat :=
  if id ∈ l then l else id :: l

/-! ## start_next_from_queue (app.py lines 115-132), one lock region. -/

def startNextFromQueue (s : St) : St :=
  if s.queueMode = false then s
  else if s.active ≠ [] then s
  else
    match s.queue with
    | [] => s
    | jid :: rest =>
        -- job_id = queue.pop(0); job = jobs.get(job_id); if job: Thread(...).start()
        if jid ∈ s.registered then
          { s with queue := rest, threads := s.threads ++ [Thr.runJob jid .tStart] }
        else
          { s with queue := rest }

/-! ## The /download handler state mutation (app.py lines 373-399), one
lock region.  The job dict is created once with
status = "queued" if QUEUE_MODE else "starting"; the three branches below
mirror `if QUEUE_MODE / elif len(active_jobs) < MAX_PARALLEL / else`.
In the QUEUE_MODE branch the handler calls start_next_from_queue() while
still holding jobs_lock: the nested acquire of the non-reentrant lock
never returns, so the appended job stays as-is and the state is wedged. -/

def submitF (s : St) (url : String) (m : Mode) : St :=
  if s.queueMode then
    { s with
        store := s.store ++ [(s.nextId, mkJob s.nextId url m (if s.queueMode then .queued else .starting))],
        registered := s.registered ++ [s.nextId],
        nextId := s.nextId + 1,
        queue := s.queue ++ [s.nextId],
        wedged := true }
  else if s.active.length < MAX_PARALLEL then
    { s with
        store := s.store ++ [(s.nextId, mkJob s.nextId url m (if s.queueMode then .queued else .starting))],
        registered := s.registered ++ [s.nextId],
        nextId := s.nextId + 1,
        threads := s.threads ++ [Thr.runJob s.nextId .tStart] }
  else
    -- jobs[job_id]["status"] = "queued"; queue.append(job_id)
    { s with
        store := updStore (s.store ++ [(s.nextId, mkJob s.nextId url m (if s.queueMode then .queued else .starting))])
                   s.nextId (fun j => { j with status := .queued }),
        registered := s.registered ++ [s.nextId],
        nextId := s.nextId + 1,
        queue := s.queue ++ [s.nextId] }

/-- The /mode handler (app.py lines 308-315): a bare global write, no lock. -/
def setModeF (s : St) (b : Bool) : St :=
  { s with queueMode := b }

/-! ## run_job thread steps (app.py lines 135-197) -/

/-- First lock region (137-141): job = jobs.get(job_id); if not job:
return; job["status"] = "downloading".  The status write is unconditional,
even if the job was meanwhile cancelled. -/
def runStartF (s : St) (id : Nat) : St :=
  if id ∈ s.registered then
    { s with
        store := updStore s.store id (fun j => { j with status := .downloading }),
        threads := (s.threads.erase (Thr.runJob id .tStart)) ++ [Thr.runJob id .tSpawned] }
  else
    { s with threads := s.threads.erase (Thr.runJob id .tStart) }

/-- Second lock region (151-153): job["process"] = proc;
active_jobs.add(job_id).  The dict write goes through the thread-held
reference, so it lands on the heap entry whether or not the job is still
registered. -/
def runBindF (s : St) (id : Nat) : St :=
  { s with
      store := updStore s.store id (fun j => { j with process := true }),
      active := setAdd s.active id,
      threads := (s.threads.erase (Thr.runJob id .tSpawned)) ++ [Thr.runJob id .tRunning] }

/-- Progress-line lock region (161-164): fields copied out of one parsed
progress record from the external process.  Non-matching or malformed
lines produce no step at all. -/
def progressF (s : St) (id : Nat) (pct : Option Nat) (sp et : String) : St :=
  { s with
      store := updStore s.store id
        (fun j => { j with percent := pct.getD j.percent, speed := sp, eta := et }) }

/-- Exit lock region (172-188): active_jobs.discard; keep a cancelled
status as-is; on return code 0 set done and 100 percent and record one
history entry; otherwise set error.  The status test reads the dict held
by the thread. -/
def runExitF (s : St) (id : Nat) (rc : Nat) : St :=
  let s1 := { s with
                active := s.active.erase id,
                threads := (s.threads.erase (Thr.runJob id .tRunning)) ++ [Thr.runJob id .tAfterExit] }
  match s.store.lookup id with
  | none => s1
  | some j =>
      if j.status = .cancelled then s1
      else if rc = 0 then
        { s1 with
            store := updStore s1.store id (fun k => { k with status := .done, percent := 100 }),
            hist := save_history s1.hist { title := j.title, etype := j.mode.str } }
      else
        { s1 with store := updStore s1.store id (fun k => { k with status := .error }) }

/-- The except branch (190-194): active_jobs.discard;
job["status"] = "error" unconditionally.  Control then still reaches the
trailing `if QUEUE_MODE` line. -/
def runFailF (s : St) (id : Nat) (ph : TPhase) : St :=
  { s with
      store := updStore s.store id (fun j => { j with status := .error }),
      active := s.active.erase id,
      threads := (s.threads.erase (Thr.runJob id ph)) ++ [Thr.runJob id .tAfterExit] }

/-- Trailing lines 196-197 when QUEUE_MODE read true: call
start_next_from_queue, then the thread ends. -/
def runAfterOnF (s : St) (id : Nat) : St :=
  let s1 := startNextFromQueue s
  { s1 with threads := s1.threads.erase (Thr.runJob id .tAfterExit) }

/-- Trailing lines 196-197 when QUEUE_MODE read false: no admission call,
the thread just ends. -/
def runAfterOffF (s : St) (id : Nat) : St :=
  { s with threads := s.threads.erase (Thr.runJob id .tAfterExit) }

/-! ## /cancel handler (app.py lines 418-444) -/

/-- The handler lock region: unknown id answers ok with no cleanup;
otherwise the status becomes cancelled (SIGTERM to an attached process has
no registry effect) and a cleanup thread is spawned. -/
def cancelF (s : St) (id : Nat) : St :=
  if id ∈ s.registered then
    { s with
        store := updStore s.store id (fun j => { j with status := .cancelled }),
        threads := s.threads ++ [Thr.cleanup id .cWait] }
  else s

/-- cleanup lock region after the 0.6 s sleep (436-440): jobs.pop,
active_jobs.discard, queue.remove. -/
def cleanupRunF (s : St) (id : Nat) : St :=
  { s with
      registered := s.registered.erase id,
      active := s.active.erase id,
      queue := s.queue.erase id,
      threads := (s.threads.erase (Thr.cleanup id .cWait)) ++ [Thr.cleanup id .cKick] }

/-- cleanup tail (441): start_next_from_queue outside the lock region,
then the thread ends. -/
def cleanupKickF (s : St) (id : Nat) : St :=
  let s1 := startNextFromQueue s
  { s1 with threads := s1.threads.erase (Thr.cleanup id .cKick) }

/-! ## The step relation

Every constructor is one scheduling-point transition.  Steps that execute
a jobs_lock region carry `s.wedged = false`; the /mode write and the
thread-exit step with QUEUE_MODE read false touch no lock. -/

inductive Step : St → St → Prop where
  | submit (s : St) (url : String) (m : Mode) (hw : s.wedged = false) :
      Step s (submitF s url m)
  | setMode (s : St) (b : Bool) :
      Step s (setModeF s b)
  | runStart (s : St) (id : Nat) (hw : s.wedged = false)
      (ht : Thr.runJob id .tStart ∈ s.threads) :
      Step s (runStartF s id)
  | runBind (s : St) (id : Nat) (hw : s.wedged = false)
      (ht : Thr.runJob id .tSpawned ∈ s.threads) :
      Step s (runBindF s id)
  | progressStep (s : St) (id : Nat) (pct : Option Nat) (sp et : String)
      (hw : s.wedged = false) (ht : Thr.runJob id .tRunning ∈ s.threads) :
      Step s (progressF s id pct sp et)
  | runExit (s : St) (id : Nat) (rc : Nat) (hw : s.wedged = false)
      (ht : Thr.runJob id .tRunning ∈ s.threads) :
      Step s (runExitF s id rc)
  | runFail (s : St) (id : Nat) (ph : TPhase) (hw : s.wedged = false)
      (hp : ph = .tSpawned ∨ ph = .tRunning)
      (ht : Thr.runJob id ph ∈ s.threads) :
      Step s (runFailF s id ph)
  | runAfterOn (s : St) (id : Nat) (hq : s.queueMode = true)
      (hw : s.wedged = false) (ht : Thr.runJob id .tAfterExit ∈ s.threads) :
      Step s (runAfterOnF s id)
  | runAfterOff (s : St) (id : Nat) (hq : s.queueMode = false)
      (ht : Thr.runJob id .tAfterExit ∈ s.threads) :
      Step s (runAfterOffF s id)
  | cancelStep (s : St) (id : Nat) (hw : s.wedged = false) :
      Step s (cancelF s id)
  | cleanupRunStep (s : St) (id : Nat) (hw : s.wedged = false)
      (ht : Thr.cleanup id .cWait ∈ s.threads) :
      Step s (cleanupRunF s id)
  | cleanupKickStep (s : St) (id : Nat) (hw : s.wedged = false)
      (ht : Thr.cleanup id .cKick ∈ s.threads) :
      Step s (cleanupKickF s id)

def Reachable (s : St) : Prop := Relation.ReflTransGen Step init s

/-- Number of registered jobs whose status is downloading. -/
def countDownloading (s : St) : Nat :=
  (s.registered.filter
    (fun id => decide (((s.store.lookup id).map Job.status) = some Status.downloading))).length

/-! ## The /download HTTP layer (app.py lines 317-401)

The request body is modelled as the list of key-value pairs of the parsed
dict; `not data` is emptiness.  Python str.strip is modelled on the
character list (pyStrip) so it evaluates inside the kernel. -/

def pyStrip (x : String) : String :=
  ⟨((x.data.dropWhile Char.isWhitespace).reverse.dropWhile Char.isWhitespace).reverse⟩

inductive DlResp where
  | ok (jobId : Nat)
  | err400 (msg : String)
deriving DecidableEq, Repr

/-- The /download handler: validation, then the lock region submitF.
In queue mode the ok response is computed but never actually delivered,
because the handler deadlocks inside the lock region (St.wedged). -/
def download (data : List (String × String)) (s : St) : DlResp × St :=
  if data.isEmpty then (.err400 "Invalid request", s)
  else
    let url := pyStrip ((data.lookup "url").getD "")
    let mode := (data.lookup "mode").getD "mp4"
    if url = "" then (.err400 "URL required", s)
    else if ¬ (mode = "mp3" ∨ mode = "mp4") then
      (.err400 "Invalid mode. Use \x27mp3\x27 or \x27mp4\x27", s)
    else
      (.ok s.nextId, submitF s url (if mode = "mp3" then .mp3 else .mp4))

/-! ## Concrete execution traces

The t-trace fills the parallel-mode concurrency limit and overflows one
job into the queue: submit three jobs and let their threads reach the
running phase, then submit a fourth (queued) and cancel it. -/

def t0 : St := init

def t1 : St := submitF t0 "uA" .mp4

def t2 : St := runStartF t1 0

def t3 : St := runBindF t2 0

def t4 : St := submitF t3 "uB" .mp4

def t5 : St := runStartF t4 1

def t6 : St := runBindF t5 1

def t7 : St := submitF t6 "uC" .mp4

def t8 : St := runStartF t7 2

def t9 : St := runBindF t8 2

def t10 : St := submitF t9 "uD" .mp4

def t11 : St := cancelF t10 3

/-- u-trace (from t10): job 0 exits with code 0 while queue-mode is off,
the queue holds job 3 and only two jobs are running. -/
def u1 : St := runExitF t10 0 0

def u2 : St := runAfterOffF u1 0

/-! v-trace (from t10): a second overflow job is queued, queue-mode is
turned on, the three running jobs exit; the last exit admits job 3, and
while the thread of job 3 is between its first and second lock regions
(so active_jobs is still empty) a cancel-cleanup of the finished job 0
re-invokes admission, which admits job 4 as well. -/

def v1 : St := submitF t10 "uE" .mp4

def v2 : St := setModeF v1 true

def v3 : St := runExitF v2 0 0

def v4 : St := runAfterOnF v3 0

def v5 : St := runExitF v4 1 0

def v6 : St := runAfterOnF v5 1

def v7 : St := runExitF v6 2 0

def v8 : St := runAfterOnF v7 2

def v9 : St := runStartF v8 3

def v10 : St := cancelF v9 0

def v11 : St := cleanupRunF v10 0

def v12 : St := cleanupKickF v11 0

def v13 : St := runStartF v12 4

/-! w-trace: four submissions with queue-mode off arrive before any of
the spawned threads reaches the region that adds it to active_jobs, so
every admission check sees len(active_jobs) = 0 and all four jobs start. -/

def w1 : St := submitF init "uA" .mp4

def w2 : St := submitF w1 "uB" .mp4

def w3 : St := submitF w2 "uC" .mp4

def w4 : St := submitF w3 "uD" .mp4

def w5 : St := runStartF w4 0

def w6 : St := runStartF w5 1

def w7 : St := runStartF w6 2

def w8 : St := runStartF w7 3

/-! x-trace (from t10): queue-mode is turned on, the queued job 3 is
cancelled, and before its delayed cleanup runs the three running jobs
exit; the final exit re-invokes admission, which pops the cancelled job 3
from the queue, spawns its thread, and marks it downloading. -/

def x1 : St := setModeF t10 true

def x2 : St := cancelF x1 3

def x3 : St := runExitF x2 0 0

def x4 : St := runAfterOnF x3 0

def x5 : St := runExitF x4 1 0

def x6 : St := runAfterOnF x5 1

def x7 : St := runExitF x6 2 0

def x8 : St := runAfterOnF x7 2

def x9 : St := runStartF x8 3

def x10 : St := runBindF x9 3

/-! ## Registry invariants -/

/-- Queue wellformedness over the components it reads: the queue has no
duplicate ids, and every queued id is registered and its record has
status queued, or cancelled during a cancellation grace window. -/
def QueueOKc (q r : List Nat) (st : List (Nat × Job)) : Prop :=
  q.Nodup ∧
  ∀ id, id ∈ q →
    id ∈ r ∧ ∃ j, st.lookup id = some j ∧ (j.status = .queued ∨ j.status = .cancelled)

/-- Every allocated id is below the fresh-id supply. -/
def FreshOKc (st : List (Nat × Job)) (n : Nat) : Prop :=
  ∀ id j, (id, j) ∈ st → id < n

/-- Every run_job thread works on an allocated id that is no longer in
the queue (a job is popped from the queue before its thread is spawned,
and never re-enqueued). -/
def ThreadsOKc (ths : List Thr) (n : Nat) (q : List Nat) : Prop :=
  ∀ id ph, Thr.runJob id ph ∈ ths → id < n ∧ id ∉ q

def InvFull (s : St) : Prop :=
  QueueOKc s.queue s.registered s.store ∧
  FreshOKc s.store s.nextId ∧
  ThreadsOKc s.threads s.nextId s.queue

/-! ## Association-list and reachability helper lemmas -/

theorem Reachable.step {a b : St} (h : Reachable a) (st : Step a b) : Reachable b :=
  Relation.ReflTransGen.tail h st

lemma lookup_mem {l : List (Nat × Job)} {id : Nat} {j : Job}
    (h : l.lookup id = some j) : (id, j) ∈ l := by
  induction l with
  | nil => simp [List.lookup] at h
  | cons p t ih =>
    obtain ⟨k, b⟩ := p
    by_cases hk : id = k
    · subst hk
      rw [List.lookup, beq_self_eq_true] at h
      simp at h
      subst h
      exact List.mem_cons_self _ _
    · rw [List.lookup] at h
      rw [show (id == k) = false from beq_eq_false_iff_ne.2 hk] at h
      exact List.mem_cons_of_mem _ (ih h)

lemma lookup_append_left {l l2 : List (Nat × Job)} {id : Nat} {j : Job}
    (h : l.lookup id = some j) : (l ++ l2).lookup id = some j := by
  induction l with
  | nil => simp [List.lookup] at h
  | cons p t ih =>
    obtain ⟨k, b⟩ := p
    rw [List.cons_append, List.lookup]
    rw [List.lookup] at h
    cases hkb : (id == k) with
    | true => rw [hkb] at h; simpa using h
    | false => rw [hkb] at h; exact ih h

lemma lookup_append_none {l l2 : List (Nat × Job)} {id : Nat}
    (h : l.lookup id = none) : (l ++ l2).lookup id = l2.lookup id := by
  induction l with
  | nil => simp
  | cons p t ih =>
    obtain ⟨k, b⟩ := p
    rw [List.cons_append, List.lookup]
    rw [List.lookup] at h
    cases hkb : (id == k) with
    | true => rw [hkb] at h; simp at h
    | false => rw [hkb] at h; exact ih h

lemma lookup_fresh {l : List (Nat × Job)} {n : Nat}
    (h : ∀ id j, (id, j) ∈ l → id < n) : l.lookup n = none := by
  induction l with
  | nil => rfl
  | cons p t ih =>
    obtain ⟨k, b⟩ := p
    rw [List.lookup]
    have hk : k < n := h k b (List.mem_cons_self _ _)
    rw [show (n == k) = false from beq_eq_false_iff_ne.2 (by omega)]
    exact ih fun id j hm => h id j (List.mem_cons_of_mem _ hm)

lemma lookup_updStore_gen (l : List (Nat × Job)) (id id2 : Nat) (f : Job → Job) :
    (updStore l id f).lookup id2 =
      if id2 = id then (l.lookup id2).map f else l.lookup id2 := by
  induction l with
  | nil => simp only [updStore, List.lookup]; split <;> rfl
  | cons p t ih =>
    obtain ⟨k, b⟩ := p
    rw [updStore]
    by_cases hk : k = id
    · rw [if_pos hk]
      by_cases h2 : id2 = k
      · subst h2
        rw [List.lookup, List.lookup, beq_self_eq_true, if_pos hk]
        rfl
      · rw [List.lookup, List.lookup,
          show (id2 == k) = false from beq_eq_false_iff_ne.2 h2]
        exact ih
    · rw [if_neg hk]
      by_cases h2 : id2 = k
      · subst h2
        rw [List.lookup, List.lookup, beq_self_eq_true, if_neg hk]
      · rw [List.lookup, List.lookup,
          show (id2 == k) = false from beq_eq_false_iff_ne.2 h2]
        exact ih

lemma lookup_updStore (l : List (Nat × Job)) (id : Nat) (f : Job → Job) :
    (updStore l id f).lookup id = (l.lookup id).map f := by
  rw [lookup_updStore_gen, if_pos rfl]

lemma lookup_updStore_ne (l : List (Nat × Job)) {id id2 : Nat} (f : Job → Job)
    (h : id2 ≠ id) : (updStore l id f).lookup id2 = l.lookup id2 := by
  rw [lookup_updStore_gen, if_neg h]

lemma mem_updStore {l : List (Nat × Job)} {id : Nat} {f : Job → Job} {p : Nat × Job}
    (h : p ∈ updStore l id f) : ∃ b, (p.1, b) ∈ l := by
  induction l with
  | nil => simp [updStore] at h
  | cons q t ih =>
    obtain ⟨k, b⟩ := q
    rw [updStore] at h
    rcases List.mem_cons.1 h with h1 | h1
    · refine ⟨b, ?_⟩
      have hp : p.1 = k := by
        by_cases hk : k = id
        · rw [if_pos hk] at h1; rw [h1]
        · rw [if_neg hk] at h1; rw [h1]
      rw [hp]
      exact List.mem_cons_self _ _
    · obtain ⟨c, hc⟩ := ih h1
      exact ⟨c, List.mem_cons_of_mem _ hc⟩

/-! ## Reachability of the concrete traces -/

lemma reach_t1 : Reachable t1 :=
  Reachable.step Relation.ReflTransGen.refl (Step.submit t0 "uA" .mp4 rfl)

lemma reach_t2 : Reachable t2 := reach_t1.step (Step.runStart t1 0 rfl (by decide))

lemma reach_t3 : Reachable t3 := reach_t2.step (Step.runBind t2 0 rfl (by decide))

lemma reach_t4 : Reachable t4 := reach_t3.step (Step.submit t3 "uB" .mp4 rfl)

lemma reach_t5 : Reachable t5 := reach_t4.step (Step.runStart t4 1 rfl (by decide))

lemma reach_t6 : Reachable t6 := reach_t5.step (Step.runBind t5 1 rfl (by decide))

lemma reach_t7 : Reachable t7 := reach_t6.step (Step.submit t6 "uC" .mp4 rfl)

lemma reach_t8 : Reachable t8 := reach_t7.step (Step.runStart t7 2 rfl (by decide))

lemma reach_t9 : Reachable t9 := reach_t8.step (Step.runBind t8 2 rfl (by decide))

lemma reach_t10 : Reachable t10 := reach_t9.step (Step.submit t9 "uD" .mp4 rfl)

lemma reach_t11 : Reachable t11 := reach_t10.step (Step.cancelStep t10 3 rfl)

lemma step_u1 : Step t10 u1 := Step.runExit t10 0 0 rfl (by decide)

lemma step_u2 : Step u1 u2 := Step.runAfterOff u1 0 rfl (by decide)

lemma reach_u2 : Reachable u2 := (reach_t10.step step_u1).step step_u2

lemma reach_v2 : Reachable v2 :=
  (reach_t10.step (Step.submit t10 "uE" .mp4 rfl)).step (Step.setMode v1 true)

lemma reach_v8 : Reachable v8 :=
  (((((reach_v2.step
    (Step.runExit v2 0 0 rfl (by decide))).step
    (Step.runAfterOn v3 0 rfl rfl (by decide))).step
    (Step.runExit v4 1 0 rfl (by decide))).step
    (Step.runAfterOn v5 1 rfl rfl (by decide))).step
    (Step.runExit v6 2 0 rfl (by decide))).step
    (Step.runAfterOn v7 2 rfl rfl (by decide))

lemma reach_v13 : Reachable v13 :=
  ((((reach_v8.step
    (Step.runStart v8 3 rfl (by decide))).step
    (Step.cancelStep v9 0 rfl)).step
    (Step.cleanupRunStep v10 0 rfl (by decide))).step
    (Step.cleanupKickStep v11 0 rfl (by decide))).step
    (Step.runStart v12 4 rfl (by decide))

lemma reach_w8 : Reachable w8 :=
  (((((((Reachable.step Relation.ReflTransGen.refl
    (Step.submit init "uA" .mp4 rfl)).step
    (Step.submit w1 "uB" .mp4 rfl)).step
    (Step.submit w2 "uC" .mp4 rfl)).step
    (Step.submit w3 "uD" .mp4 rfl)).step
    (Step.runStart w4 0 rfl (by decide))).step
    (Step.runStart w5 1 rfl (by decide))).step
    (Step.runStart w6 2 rfl (by decide))).step
    (Step.runStart w7 3 rfl (by decide))

lemma reach_x1 : Reachable x1 := reach_t10.step (Step.setMode t10 true)

lemma step_x2 : Step x1 x2 := Step.cancelStep x1 3 rfl

lemma steps_x2_x10 : Relation.ReflTransGen Step x2 x10 :=
  ((((((((Relation.ReflTransGen.refl.tail
    (Step.runExit x2 0 0 rfl (by decide))).tail
    (Step.runAfterOn x3 0 rfl rfl (by decide))).tail
    (Step.runExit x4 1 0 rfl (by decide))).tail
    (Step.runAfterOn x5 1 rfl rfl (by decide))).tail
    (Step.runExit x6 2 0 rfl (by decide))).tail
    (Step.runAfterOn x7 2 rfl rfl (by decide))).tail
    (Step.runStart x8 3 rfl (by decide))).tail
    (Step.runBind x9 3 rfl (by decide)))

/-! ## Further shared helper lemmas -/

lemma lookup_append_none_str {l l2 : List (String × String)} {k : String}
    (h : l.lookup k = none) : (l ++ l2).lookup k = l2.lookup k := by
  induction l with
  | nil => simp
  | cons p t ih =>
    obtain ⟨a, b⟩ := p
    rw [List.cons_append, List.lookup]
    rw [List.lookup] at h
    cases hkb : (k == a) with
    | true => rw [hkb] at h; simp at h
    | false => rw [hkb] at h; exact ih h

lemma lookup_append_left_str {l l2 : List (String × String)} {k v : String}
    (h : l.lookup k = some v) : (l ++ l2).lookup k = some v := by
  induction l with
  | nil => simp [List.lookup] at h
  | cons p t ih =>
    obtain ⟨a, b⟩ := p
    rw [List.cons_append, List.lookup]
    rw [List.lookup] at h
    cases hkb : (k == a) with
    | true => rw [hkb] at h; simpa using h
    | false => rw [hkb] at h; exact ih h

lemma lookup_updStore_proc (l : List (Nat × Job)) (id : Nat) (f : Job → Job)
    (hf : ∀ j, (f j).process = j.process) :
    ((updStore l id f).lookup id).map Job.process = (l.lookup id).map Job.process := by
  rw [lookup_updStore]
  cases l.lookup id with
  | none => rfl
  | some j => simp [hf]

/-- Every branch of the /download lock region registers the fresh id with
a record carrying the requested mode (freshness of nextId keeps the new
entry visible through lookup). -/
lemma submitF_creates (s : St) (url : String) (m : Mode)
    (hf : FreshOKc s.store s.nextId) :
    s.nextId ∈ (submitF s url m).registered
    ∧ ((submitF s url m).store.lookup s.nextId).map Job.mode = some m := by
  have hnone : s.store.lookup s.nextId = none := lookup_fresh hf
  constructor
  · unfold submitF
    split_ifs <;> simp
  · by_cases h1 : s.queueMode
    · simp [submitF, h1, lookup_append_none hnone, List.lookup, mkJob]
    · by_cases h2 : s.active.length < MAX_PARALLEL
      · simp [submitF, h1, h2, lookup_append_none hnone, List.lookup, mkJob]
      · simp [submitF, h1, h2, lookup_updStore, lookup_append_none hnone,
          List.lookup, mkJob]

/-! ## Invariant preservation -/

lemma queue_mem_lt {q r : List Nat} {st : List (Nat × Job)} {n : Nat}
    (hq : QueueOKc q r st) (hf : FreshOKc st n) {i : Nat} (hi : i ∈ q) : i < n := by
  obtain ⟨-, j, hl, -⟩ := hq.2 i hi
  exact hf i j (lookup_mem hl)

lemma queueOKc_upd_of_notin {q r : List Nat} {st : List (Nat × Job)}
    (h : QueueOKc q r st) {id : Nat} (hid : id ∉ q) (f : Job → Job) :
    QueueOKc q r (updStore st id f) := by
  refine ⟨h.1, fun i hi => ?_⟩
  obtain ⟨hr, j, hl, hs⟩ := h.2 i hi
  have hne : i ≠ id := fun he => hid (he ▸ hi)
  refine ⟨hr, j, ?_, hs⟩
  rw [lookup_updStore_ne st f hne]
  exact hl

lemma queueOKc_upd_of_status {q r : List Nat} {st : List (Nat × Job)}
    (h : QueueOKc q r st) (id : Nat) (f : Job → Job)
    (hf : ∀ j, (f j).status = j.status ∨ (f j).status = .cancelled) :
    QueueOKc q r (updStore st id f) := by
  refine ⟨h.1, fun i hi => ?_⟩
  obtain ⟨hr, j, hl, hs⟩ := h.2 i hi
  by_cases he : i = id
  · subst he
    refine ⟨hr, f j, by rw [lookup_updStore, hl]; rfl, ?_⟩
    rcases hf j with h1 | h1
    · rw [h1]
      exact hs
    · exact Or.inr h1
  · exact ⟨hr, j, by rw [lookup_updStore_ne st f he]; exact hl, hs⟩

lemma queueOKc_erase_pair {q r : List Nat} {st : List (Nat × Job)}
    (h : QueueOKc q r st) (a : Nat) :
    QueueOKc (q.erase a) (r.erase a) st := by
  refine ⟨h.1.erase a, fun i hi => ?_⟩
  have hiq : i ∈ q := List.mem_of_mem_erase hi
  have hne : i ≠ a := ((List.Nodup.mem_erase_iff h.1).1 hi).1
  obtain ⟨hr, j, hl, hs⟩ := h.2 i hiq
  exact ⟨(List.mem_erase_of_ne hne).2 hr, j, hl, hs⟩

lemma nodup_append_singleton {q : List Nat} (h : q.Nodup) {a : Nat} (ha : a ∉ q) :
    (q ++ [a]).Nodup := by
  rw [List.nodup_append]
  refine ⟨h, List.nodup_singleton a, fun x hx hx2 => ?_⟩
  simp at hx2
  subst hx2
  exact ha hx

lemma freshOKc_updStore {st : List (Nat × Job)} {n : Nat}
    (h : FreshOKc st n) (id : Nat) (f : Job → Job) :
    FreshOKc (updStore st id f) n := by
  intro i j hm
  obtain ⟨b, hb⟩ := mem_updStore hm
  exact h i b hb

lemma freshOKc_append {st : List (Nat × Job)} {n : Nat}
    (h : FreshOKc st n) (j : Job) :
    FreshOKc (st ++ [(n, j)]) (n + 1) := by
  intro i b hm
  rcases List.mem_append.1 hm with hm | hm
  · exact Nat.lt_succ_of_lt (h i b hm)
  · simp at hm
    omega

lemma threadsOKc_erase {ths : List Thr} {n : Nat} {q : List Nat}
    (h : ThreadsOKc ths n q) (t : Thr) : ThreadsOKc (ths.erase t) n q :=
  fun id ph hm => h id ph (List.mem_of_mem_erase hm)

lemma threadsOKc_append_run {ths : List Thr} {n : Nat} {q : List Nat}
    (h : ThreadsOKc ths n q) {id : Nat} (h1 : id < n) (h2 : id ∉ q) (ph : TPhase) :
    ThreadsOKc (ths ++ [Thr.runJob id ph]) n q := by
  intro i p hm
  rcases List.mem_append.1 hm with hm | hm
  · exact h i p hm
  · simp at hm
    obtain ⟨rfl, rfl⟩ := hm
    exact ⟨h1, h2⟩

lemma threadsOKc_append_cleanup {ths : List Thr} {n : Nat} {q : List Nat}
    (h : ThreadsOKc ths n q) (id : Nat) (ph : CPhase) :
    ThreadsOKc (ths ++ [Thr.cleanup id ph]) n q := by
  intro i p hm
  rcases List.mem_append.1 hm with hm | hm
  · exact h i p hm
  · simp at hm

lemma threadsOKc_mono_nextId {ths : List Thr} {n : Nat} {q : List Nat}
    (h : ThreadsOKc ths n q) : ThreadsOKc ths (n + 1) q :=
  fun i p hm => ⟨Nat.lt_succ_of_lt (h i p hm).1, (h i p hm).2⟩

lemma threadsOKc_queue_erase {ths : List Thr} {n : Nat} {q : List Nat}
    (h : ThreadsOKc ths n q) (a : Nat) : ThreadsOKc ths n (q.erase a) :=
  fun i p hm => ⟨(h i p hm).1, fun hq => (h i p hm).2 (List.mem_of_mem_erase hq)⟩

lemma threadsOKc_queue_append {ths : List Thr} {n : Nat} {q : List Nat}
    (h : ThreadsOKc ths n q) {a : Nat}
    (ha : ∀ i p, Thr.runJob i p ∈ ths → i ≠ a) :
    ThreadsOKc ths n (q ++ [a]) := by
  intro i p hm
  refine ⟨(h i p hm).1, fun hq => ?_⟩
  rcases List.mem_append.1 hq with hq | hq
  · exact (h i p hm).2 hq
  · simp at hq
    exact ha i p hm hq

lemma invFull_init : InvFull init :=
  ⟨⟨List.nodup_nil, fun i hi => absurd hi (List.not_mem_nil i)⟩,
   fun i j hm => absurd hm (List.not_mem_nil (i, j)),
   fun i p hm => absurd hm (List.not_mem_nil (Thr.runJob i p))⟩

lemma invFull_startNext {s : St} (h : InvFull s) : InvFull (startNextFromQueue s) := by
  obtain ⟨hq, hf, ht⟩ := h
  unfold startNextFromQueue
  split_ifs with h1 h2
  · exact ⟨hq, hf, ht⟩
  · exact ⟨hq, hf, ht⟩
  · cases hqe : s.queue with
    | nil => exact ⟨hq, hf, ht⟩
    | cons jid rest =>
        rw [hqe] at hq ht
        have hqr : QueueOKc rest s.registered s.store :=
          ⟨(List.nodup_cons.1 hq.1).2,
           fun i hi => hq.2 i (List.mem_cons_of_mem _ hi)⟩
        have hlt : jid < s.nextId := queue_mem_lt hq hf (List.mem_cons_self _ _)
        have hnin : jid ∉ rest := (List.nodup_cons.1 hq.1).1
        have htr : ThreadsOKc s.threads s.nextId rest :=
          fun i p hm => ⟨(ht i p hm).1,
            fun hr => (ht i p hm).2 (List.mem_cons_of_mem _ hr)⟩
        show InvFull (if jid ∈ s.registered then
            { s with queue := rest, threads := s.threads ++ [Thr.runJob jid .tStart] }
          else { s with queue := rest })
        split_ifs with h3
        · exact ⟨hqr, hf, threadsOKc_append_run htr hlt hnin _⟩
        · exact ⟨hqr, hf, htr⟩

lemma invFull_submitF {s : St} (h : InvFull s) (url : String) (m : Mode) :
    InvFull (submitF s url m) := by
  obtain ⟨hq, hf, ht⟩ := h
  have hnq : s.nextId ∉ s.queue := fun hin =>
    Nat.lt_irrefl _ (queue_mem_lt hq hf hin)
  have hth_ne : ∀ i p, Thr.runJob i p ∈ s.threads → i ≠ s.nextId :=
    fun i p hm he => Nat.lt_irrefl _ (he ▸ (ht i p hm).1)
  have hnone : s.store.lookup s.nextId = none := lookup_fresh hf
  unfold submitF
  split_ifs with h1 h2
  · refine ⟨⟨nodup_append_singleton hq.1 hnq, fun i hi => ?_⟩,
      freshOKc_append hf _,
      threadsOKc_queue_append (threadsOKc_mono_nextId ht) hth_ne⟩
    rcases List.mem_append.1 hi with hi | hi
    · obtain ⟨hr, j, hl, hs⟩ := hq.2 i hi
      exact ⟨List.mem_append.2 (Or.inl hr), j, lookup_append_left hl, hs⟩
    · simp at hi
      subst hi
      refine ⟨List.mem_append.2 (Or.inr (by simp)),
        mkJob s.nextId url m Status.queued, ?_, Or.inl rfl⟩
      rw [lookup_append_none hnone, List.lookup, beq_self_eq_true]
  · refine ⟨⟨hq.1, fun i hi => ?_⟩,
      freshOKc_append hf _,
      threadsOKc_append_run (threadsOKc_mono_nextId ht) (Nat.lt_succ_self _) hnq _⟩
    obtain ⟨hr, j, hl, hs⟩ := hq.2 i hi
    exact ⟨List.mem_append.2 (Or.inl hr), j, lookup_append_left hl, hs⟩
  · refine ⟨⟨nodup_append_singleton hq.1 hnq, fun i hi => ?_⟩,
      freshOKc_updStore (freshOKc_append hf _) _ _,
      threadsOKc_queue_append (threadsOKc_mono_nextId ht) hth_ne⟩
    rcases List.mem_append.1 hi with hi | hi
    · obtain ⟨hr, j, hl, hs⟩ := hq.2 i hi
      have hne : i ≠ s.nextId := by
        have := queue_mem_lt hq hf hi
        omega
      refine ⟨List.mem_append.2 (Or.inl hr), j, ?_, hs⟩
      rw [lookup_updStore_ne _ _ hne]
      exact lookup_append_left hl
    · simp at hi
      subst hi
      refine ⟨List.mem_append.2 (Or.inr (by simp)),
        { mkJob s.nextId url m Status.starting with status := Status.queued }, ?_,
        Or.inl rfl⟩
      rw [lookup_updStore, lookup_append_none hnone, List.lookup, beq_self_eq_true]
      rfl

lemma invFull_runStartF {s : St} (h : InvFull s) {id : Nat}
    (hth : Thr.runJob id .tStart ∈ s.threads) : InvFull (runStartF s id) := by
  obtain ⟨hq, hf, ht⟩ := h
  unfold runStartF
  split_ifs with h1
  · exact ⟨queueOKc_upd_of_notin hq (ht id .tStart hth).2 _,
      freshOKc_updStore hf _ _,
      threadsOKc_append_run (threadsOKc_erase ht _) (ht id .tStart hth).1
        (ht id .tStart hth).2 _⟩
  · exact ⟨hq, hf, threadsOKc_erase ht _⟩

lemma invFull_runBindF {s : St} (h : InvFull s) {id : Nat}
    (hth : Thr.runJob id .tSpawned ∈ s.threads) : InvFull (runBindF s id) := by
  obtain ⟨hq, hf, ht⟩ := h
  exact ⟨queueOKc_upd_of_status hq id _ (fun j => Or.inl rfl),
    freshOKc_updStore hf _ _,
    threadsOKc_append_run (threadsOKc_erase ht _) (ht id .tSpawned hth).1
      (ht id .tSpawned hth).2 _⟩

lemma invFull_progressF {s : St} (h : InvFull s) (id : Nat) (pct : Option Nat)
    (sp et : String) : InvFull (progressF s id pct sp et) := by
  obtain ⟨hq, hf, ht⟩ := h
  exact ⟨queueOKc_upd_of_status hq id _ (fun j => Or.inl rfl),
    freshOKc_updStore hf _ _, ht⟩

lemma invFull_runExitF {s : St} (h : InvFull s) {id : Nat} (rc : Nat)
    (hth : Thr.runJob id .tRunning ∈ s.threads) : InvFull (runExitF s id rc) := by
  obtain ⟨hq, hf, ht⟩ := h
  have hlt := (ht id .tRunning hth).1
  have hnin := (ht id .tRunning hth).2
  have hthr : ThreadsOKc
      ((s.threads.erase (Thr.runJob id .tRunning)) ++ [Thr.runJob id .tAfterExit])
      s.nextId s.queue :=
    threadsOKc_append_run (threadsOKc_erase ht _) hlt hnin _
  unfold runExitF
  cases hl : s.store.lookup id with
  | none => exact ⟨hq, hf, hthr⟩
  | some j =>
      by_cases hc : j.status = .cancelled
      · simp only [if_pos hc]
        exact ⟨hq, hf, hthr⟩
      · by_cases h0 : rc = 0
        · simp only [if_neg hc, if_pos h0]
          exact ⟨queueOKc_upd_of_notin hq hnin _, freshOKc_updStore hf _ _, hthr⟩
        · simp only [if_neg hc, if_neg h0]
          exact ⟨queueOKc_upd_of_notin hq hnin _, freshOKc_updStore hf _ _, hthr⟩

lemma invFull_runFailF {s : St} (h : InvFull s) {id : Nat} {ph : TPhase}
    (hth : Thr.runJob id ph ∈ s.threads) : InvFull (runFailF s id ph) := by
  obtain ⟨hq, hf, ht⟩ := h
  exact ⟨queueOKc_upd_of_notin hq (ht id ph hth).2 _,
    freshOKc_updStore hf _ _,
    threadsOKc_append_run (threadsOKc_erase ht _) (ht id ph hth).1
      (ht id ph hth).2 _⟩

lemma invFull_runAfterOnF {s : St} (h : InvFull s) (id : Nat) :
    InvFull (runAfterOnF s id) := by
  obtain ⟨hq2, hf2, ht2⟩ := invFull_startNext h
  exact ⟨hq2, hf2, threadsOKc_erase ht2 _⟩

lemma invFull_runAfterOffF {s : St} (h : InvFull s) (id : Nat) :
    InvFull (runAfterOffF s id) := by
  obtain ⟨hq, hf, ht⟩ := h
  exact ⟨hq, hf, threadsOKc_erase ht _⟩

lemma invFull_cancelF {s : St} (h : InvFull s) (id : Nat) : InvFull (cancelF s id) := by
  obtain ⟨hq, hf, ht⟩ := h
  unfold cancelF
  split_ifs with h1
  · exact ⟨queueOKc_upd_of_status hq id _ (fun j => Or.inr rfl),
      freshOKc_updStore hf _ _,
      threadsOKc_append_cleanup ht _ _⟩
  · exact ⟨hq, hf, ht⟩

lemma invFull_cleanupRunF {s : St} (h : InvFull s) (id : Nat) :
    InvFull (cleanupRunF s id) := by
  obtain ⟨hq, hf, ht⟩ := h
  exact ⟨queueOKc_erase_pair hq id, hf,
    threadsOKc_append_cleanup (threadsOKc_queue_erase (threadsOKc_erase ht _) id) _ _⟩

lemma invFull_cleanupKickF {s : St} (h : InvFull s) (id : Nat) :
    InvFull (cleanupKickF s id) := by
  obtain ⟨hq2, hf2, ht2⟩ := invFull_startNext h
  exact ⟨hq2, hf2, threadsOKc_erase ht2 _⟩

lemma invFull_step {s s2 : St} (h : InvFull s) (st : Step s s2) : InvFull s2 := by
  cases st with
  | submit url m hw => exact invFull_submitF h url m
  | setMode b => exact h
  | runStart id hw ht => exact invFull_runStartF h ht
  | runBind id hw ht => exact invFull_runBindF h ht
  | progressStep id pct sp et hw ht => exact invFull_progressF h id pct sp et
  | runExit id rc hw ht => exact invFull_runExitF h rc ht
  | runFail id ph hw hp ht => exact invFull_runFailF h ht
  | runAfterOn id hq hw ht => exact invFull_runAfterOnF h id
  | runAfterOff id hq ht => exact invFull_runAfterOffF h id
  | cancelStep id hw => exact invFull_cancelF h id
  | cleanupRunStep id hw ht => exact invFull_cleanupRunF h id
  | cleanupKickStep id hw ht => exact invFull_cleanupKickF h id

lemma reachable_invFull {s : St} (h : Reachable s) : InvFull s := by
  induction h with
  | refl => exact invFull_init
  | tail h1 h2 ih => exact invFull_step ih h2

/-! ## Claim theorems -/

/-- C1 (counterexample): a concrete reachable run in which job 0 exits
while queue-mode is off, the queue holds job 3 and only 2 of 3 slots are
busy, yet after the post-exit hook job 3 is still queued and no thread
was spawned for it: admission after a job exit does not happen with
queue-mode off. -/
theorem c1_counterexample :
    Reachable u2
    ∧ Step t10 u1 ∧ Step u1 u2
    ∧ u2.queueMode = false
    ∧ u2.queue = [3]
    ∧ u2.active.length < MAX_PARALLEL
    ∧ ((u2.store.lookup 3).map Job.status) = some Status.queued
    ∧ (∀ ph, Thr.runJob 3 ph ∉ u2.threads) :=
  ⟨reach_u2, step_u1, step_u2, by decide, by decide, by decide, by decide, by decide⟩

/-- C1 (amended): after a job exit the admission routine is invoked only
when queue-mode is on; with queue-mode off the post-exit step merely
retires the finished thread, and even a direct call of the admission
routine is a no-op. -/
theorem c1_amended (s : St) (id : Nat) (h : s.queueMode = false) :
    startNextFromQueue s = s
    ∧ runAfterOffF s id
        = { s with threads := s.threads.erase (Thr.runJob id .tAfterExit) } := by
  constructor
  · unfold startNextFromQueue
    rw [h]
    rfl
  · rfl

/-- C1 (amended, witness): instance of c1_amended at the initial state. -/
theorem c1_amended_witness :
    startNextFromQueue init = init
    ∧ runAfterOffF init 0
        = { init with threads := init.threads.erase (Thr.runJob 0 .tAfterExit) } :=
  c1_amended init 0 rfl

/-- C2: on process exit, a job already marked cancelled is left entirely
unchanged (store and history); otherwise exit code 0 yields status done,
percent 100 and exactly one new history entry prepended (and truncated to
the cap), and a nonzero exit code yields status error with no history
entry. -/
theorem c2_process_exit (s : St) (id rc : Nat) (j : Job)
    (hj : s.store.lookup id = some j) :
    (j.status = .cancelled →
       (runExitF s id rc).store = s.store ∧ (runExitF s id rc).hist = s.hist)
    ∧ (j.status ≠ .cancelled → rc = 0 →
       (runExitF s id rc).store.lookup id
           = some { j with status := .done, percent := 100 }
       ∧ load_history (runExitF s id rc).hist
           = ({ title := j.title, etype := j.mode.str } :: load_history s.hist).take
               MAX_HISTORY_ENTRIES)
    ∧ (j.status ≠ .cancelled → rc ≠ 0 →
       (runExitF s id rc).store.lookup id = some { j with status := .error }
       ∧ (runExitF s id rc).hist = s.hist) := by
  refine ⟨fun hc => ?_, fun hc h0 => ?_, fun hc h0 => ?_⟩
  · refine ⟨?_, ?_⟩ <;> simp [runExitF, hj, hc]
  · refine ⟨?_, ?_⟩ <;>
      simp [runExitF, hj, hc, h0, lookup_updStore, save_history, load_history,
        MAX_HISTORY_ENTRIES]
  · refine ⟨?_, ?_⟩ <;> simp [runExitF, hj, hc, h0, lookup_updStore]

/-- C2 (witness): instance of c2_process_exit for a fresh mp4 job exiting
with code 0. -/
theorem c2_process_exit_witness :
    (runExitF (submitF init "u" Mode.mp4) 0 0).store.lookup 0
        = some { mkJob 0 "u" Mode.mp4 .starting with status := .done, percent := 100 }
    ∧ load_history (runExitF (submitF init "u" Mode.mp4) 0 0).hist
        = ({ title := (mkJob 0 "u" Mode.mp4 .starting).title,
             etype := (mkJob 0 "u" Mode.mp4 .starting).mode.str }
             :: load_history (submitF init "u" Mode.mp4).hist).take MAX_HISTORY_ENTRIES :=
  (c2_process_exit (submitF init "u" Mode.mp4) 0 0
    (mkJob 0 "u" Mode.mp4 .starting) rfl).2.1 (by decide) rfl

/-- C3 (code bug): a reachable interleaving with queue-mode on in which
two jobs are simultaneously in downloading status.  The admission check
`if active_jobs` runs before a previously admitted job has reached the
lock region that inserts it into active_jobs. -/
theorem c3_queue_mode_race :
    Reachable v13
    ∧ v13.queueMode = true
    ∧ ((v13.store.lookup 3).map Job.status) = some Status.downloading
    ∧ ((v13.store.lookup 4).map Job.status) = some Status.downloading
    ∧ 2 ≤ countDownloading v13 :=
  ⟨reach_v13, by decide, by decide, by decide, by decide⟩

/-- C4 (code bug): a reachable interleaving with queue-mode off in which
four jobs are simultaneously in downloading status, exceeding
MAX_PARALLEL = 3.  Each submission checks len(active_jobs) before any of
the spawned threads has added itself to active_jobs. -/
theorem c4_parallel_ceiling_race :
    Reachable w8
    ∧ w8.queueMode = false
    ∧ MAX_PARALLEL < countDownloading w8 :=
  ⟨reach_w8, by decide, by decide⟩

/-- C5 (counterexample): a reachable state in which job 3 sits in the
queue while its status is cancelled, not queued: cancel marks the status
immediately but removes the id from the queue only in the delayed
cleanup. -/
theorem c5_counterexample :
    Reachable t11
    ∧ 3 ∈ t11.queue
    ∧ ((t11.store.lookup 3).map Job.status) = some Status.cancelled :=
  ⟨reach_t11, by decide, by decide⟩

/-- C5 (amended): in every reachable state, each job identifier appears
in the queue at most once, and every queued identifier is registered and
refers to a record whose status is queued, or cancelled during the grace
window between cancel and its delayed cleanup. -/
theorem c5_amended (s : St) (h : Reachable s) :
    s.queue.Nodup
    ∧ ∀ id ∈ s.queue, id ∈ s.registered
        ∧ ∃ j, s.store.lookup id = some j
            ∧ (j.status = .queued ∨ j.status = .cancelled) := by
  obtain ⟨hq, -, -⟩ := reachable_invFull h
  exact ⟨hq.1, hq.2⟩

/-- C5 (amended, witness): instance of c5_amended at the reachable state
t10 whose queue holds job 3. -/
theorem c5_amended_witness :
    t10.queue.Nodup
    ∧ ∀ id ∈ t10.queue, id ∈ t10.registered
        ∧ ∃ j, t10.store.lookup id = some j
            ∧ (j.status = .queued ∨ j.status = .cancelled) :=
  c5_amended t10 reach_t10

/-- C6 (code bug): a reachable run in which job 3 is cancelled while
queued (status cancelled, still in the queue), and before its delayed
cleanup executes, an admission triggered by a job exit pops it, spawns
its thread and process, and marks it downloading. -/
theorem c6_cancelled_queued_job_starts :
    Reachable x1
    ∧ ((x1.store.lookup 3).map Job.status) = some Status.queued
    ∧ 3 ∈ x1.queue
    ∧ Step x1 x2
    ∧ ((x2.store.lookup 3).map Job.status) = some Status.cancelled
    ∧ 3 ∈ x2.queue
    ∧ Relation.ReflTransGen Step x2 x10
    ∧ ((x10.store.lookup 3).map Job.status) = some Status.downloading
    ∧ ((x10.store.lookup 3).map Job.process) = some true :=
  ⟨reach_x1, by decide, by decide, step_x2, by decide, by decide, steps_x2_x10,
   by decide, by decide⟩

/-- C7 (counterexample): in a concrete reachable state job 0 has exited
with code 0 and reached terminal status done, yet its process handle is
still attached: the exit handler never clears job["process"]. -/
theorem c7_counterexample :
    Reachable u1
    ∧ ((u1.store.lookup 0).map Job.status) = some Status.done
    ∧ ((u1.store.lookup 0).map Job.process) = some true :=
  ⟨reach_t10.step step_u1, by decide, by decide⟩

/-- C7 (amended): the process handle is attached by the bind region right
after spawn, and no later transition clears it: the exit region, the
exception handler and cancel all leave the handle field untouched; the
handle disappears only when the whole record is deleted by cleanup. -/
theorem c7_amended (s : St) (id rc : Nat) (ph : TPhase) :
    ((runBindF s id).store.lookup id)
        = (s.store.lookup id).map (fun j => { j with process := true })
    ∧ ((runExitF s id rc).store.lookup id).map Job.process
        = (s.store.lookup id).map Job.process
    ∧ ((runFailF s id ph).store.lookup id).map Job.process
        = (s.store.lookup id).map Job.process
    ∧ ((cancelF s id).store.lookup id).map Job.process
        = (s.store.lookup id).map Job.process := by
  refine ⟨?_, ?_, ?_, ?_⟩
  · simp only [runBindF]
    exact lookup_updStore _ _ _
  · cases hj : s.store.lookup id with
    | none => simp only [runExitF, hj]
    | some j =>
      by_cases hc : j.status = .cancelled
      · simp only [runExitF, hj, if_pos hc]
      · by_cases h0 : rc = 0
        · simp only [runExitF, hj, if_neg hc, if_pos h0]
          exact (lookup_updStore_proc s.store id
            (fun k => { k with status := Status.done, percent := 100 })
            (fun k => rfl)).trans (by rw [hj])
        · simp only [runExitF, hj, if_neg hc, if_neg h0]
          exact (lookup_updStore_proc s.store id
            (fun k => { k with status := Status.error })
            (fun k => rfl)).trans (by rw [hj])
  · simp only [runFailF]
    exact lookup_updStore_proc _ _ _ (fun k => rfl)
  · unfold cancelF
    split_ifs with h1
    · exact lookup_updStore_proc _ _ _ (fun k => rfl)
    · rfl

/-- C8: save_history prepends the new entry to the loaded list and writes
back at most MAX_HISTORY_ENTRIES entries, newest first; load_history
returns the stored list and treats an absent or corrupt file as empty. -/
theorem c8_history_store (f : HFile) (e : HEntry) :
    load_history (save_history f e) = (e :: load_history f).take MAX_HISTORY_ENTRIES
    ∧ (load_history (save_history f e)).length ≤ MAX_HISTORY_ENTRIES
    ∧ (load_history (save_history f e)).head? = some e
    ∧ load_history .absent = ([] : List HEntry)
    ∧ load_history .corrupt = ([] : List HEntry) := by
  refine ⟨rfl, ?_, rfl, rfl, rfl⟩
  exact List.length_take_le MAX_HISTORY_ENTRIES (e :: load_history f)

/-- C9: a /download request whose URL is missing or empty after strip, or
whose supplied mode is neither mp3 nor mp4, gets a 400 error response and
leaves the registry state exactly unchanged. -/
theorem c9_validation (data : List (String × String)) (s : St)
    (h : pyStrip ((data.lookup "url").getD "") = ""
       ∨ ∃ m, data.lookup "mode" = some m ∧ m ≠ "mp3" ∧ m ≠ "mp4") :
    ∃ msg, download data s = (.err400 msg, s) := by
  by_cases he : data.isEmpty
  · exact ⟨"Invalid request", by simp [download, he]⟩
  · by_cases hu : pyStrip ((data.lookup "url").getD "") = ""
    · exact ⟨"URL required", by simp [download, he, hu]⟩
    · rcases h with h | ⟨m, hm, h3, h4⟩
      · exact absurd h hu
      · refine ⟨"Invalid mode. Use \x27mp3\x27 or \x27mp4\x27", ?_⟩
        simp [download, he, hu, hm, h3, h4]

/-- C9 (witness): the request with url https://x and mode wav is rejected
with a 400 and no state change. -/
theorem c9_validation_witness :
    ∃ msg, download [("url", "https://x"), ("mode", "wav")] init
      = (.err400 msg, init) :=
  c9_validation _ init (Or.inr ⟨"wav", by decide, by decide, by decide⟩)

/-- C10: a /download request with a non-empty URL and no mode key at all
is treated exactly like the same request with mode mp4: it is not
rejected, and a fresh mp4 job is registered. -/
theorem c10_mode_defaults_mp4 (data : List (String × String)) (s : St)
    (hm : data.lookup "mode" = none)
    (hu : pyStrip ((data.lookup "url").getD "") ≠ "")
    (hf : FreshOKc s.store s.nextId) :
    download data s = download (data ++ [("mode", "mp4")]) s
    ∧ (∀ msg, (download data s).1 ≠ .err400 msg)
    ∧ s.nextId ∈ (download data s).2.registered
    ∧ ((download data s).2.store.lookup s.nextId).map Job.mode = some Mode.mp4 := by
  have hne : data.isEmpty = false := by
    cases data with
    | nil => exact absurd rfl hu
    | cons p t => rfl
  have hm2 : (data ++ [("mode", "mp4")]).lookup "mode" = some "mp4" := by
    rw [lookup_append_none_str hm]
    rfl
  have hu2 : (data ++ [("mode", "mp4")]).lookup "url" = data.lookup "url" := by
    cases hl : data.lookup "url" with
    | none =>
        rw [lookup_append_none_str hl]
        rfl
    | some v => exact lookup_append_left_str hl
  have hd : download data s = (.ok s.nextId, submitF s (pyStrip ((data.lookup "url").getD "")) .mp4) := by
    simp [download, hne, hm, hu]
  have hd2 : download (data ++ [("mode", "mp4")]) s
      = (.ok s.nextId, submitF s (pyStrip ((data.lookup "url").getD "")) .mp4) := by
    simp [download, hm2, hu2, hu]
  have hc := submitF_creates s (pyStrip ((data.lookup "url").getD "")) .mp4 hf
  refine ⟨hd.trans hd2.symm, ?_, ?_, ?_⟩
  · intro msg
    rw [hd]
    simp
  · rw [hd]
    exact hc.1
  · rw [hd]
    exact hc.2

/-- C10 (witness): instance at a one-key request and the initial state. -/
theorem c10_mode_defaults_mp4_witness :
    download [("url", "https://x")] init
      = download ([("url", "https://x")] ++ [("mode", "mp4")]) init
    ∧ 0 ∈ (download [("url", "https://x")] init).2.registered :=
  ⟨(c10_mode_defaults_mp4 [("url", "https://x")] init (by decide) (by decide)
      (fun id j hm => by simp [init] at hm)).1,
   (c10_mode_defaults_mp4 [("url", "https://x")] init (by decide) (by decide)
      (fun id j hm => by simp [init] at hm)).2.2.1⟩

end EchoDownloader
